import Mathlib

/-!
Verification of the questionnaire-analysis program (`hw5_q1.py`).

The program is a single class `QuestionnaireAnalysis` holding one tabular
dataset (`self.data`) and five query operations.  We shallowly embed the
table as a `List Record`, with rationals (`ℚ`) standing for the numeric
values; the textual literal "nan" is a distinct constructor of `QVal`,
since the source normalizes it to a true missing value with
`replace("nan", np.NaN)` at the start of several operations.
-/

namespace HW5

/-- A question-score cell: a number, the textual literal "nan", or a true
missing value (`NaN`/`null`). -/
inductive QVal where
  | num (x : ℚ)
  | nanText
  | missing
deriving DecidableEq

/-- The numeric content of a cell; `none` for both "nan" text and missing
(this is the view every aggregate takes after `replace("nan", np.NaN)`). -/
def QVal.toOpt : QVal → Option ℚ
  | num x => some x
  | _ => none

/-- `replace("nan", np.NaN)` acting on one question cell. -/
def QVal.normalizeNan : QVal → QVal
  | nanText => missing
  | v => v

/-- One row of the loaded table: the fixed survey schema.  The five
question scores are indexed by `Fin 5` (q1 is index 0, ..., q5 is 4). -/
structure Record where
  age : Option ℚ
  email : Option String
  first_name : Option String
  last_name : Option String
  gender : Option String
  id : Option ℚ
  qs : Fin 5 → QVal
deriving DecidableEq

/-- `replace("nan", np.NaN)` acting on one textual cell. -/
def normStr (o : Option String) : Option String :=
  if o = some "nan" then none else o

/-- `df.replace("nan", np.NaN)` acting on one row. -/
def Record.normalize (r : Record) : Record :=
  { r with
    email := normStr r.email
    first_name := normStr r.first_name
    last_name := normStr r.last_name
    gender := normStr r.gender
    qs := fun i => (r.qs i).normalizeNan }

/-- A row with every field missing (used to build concrete examples). -/
def blankRec : Record :=
  { age := none, email := none, first_name := none, last_name := none,
    gender := none, id := none, qs := fun _ => QVal.missing }

/-! ## `remove_rows_without_mail` (spec: `filterValidEmails`) -/

/-- Containment of the two-character substring "@." (the source's
`str.contains("@\.")`, a regex matching a literal "@" then "."). -/
def hasAtDot : List Char → Bool
  | [] => false
  | [_] => false
  | a :: b :: rest => (a == '@' && b == '.') || hasAtDot (b :: rest)

/-- Literal (non-regex) character-list prefix test, the semantics of
Python's `str.startswith`. -/
def startsWithChars : List Char → List Char → Bool
  | _, [] => true
  | [], _ :: _ => false
  | a :: as, b :: bs => (a == b) && startsWithChars as bs

/-- Literal string prefix test (Python's `str.startswith`). -/
def strStartsWith (s p : String) : Bool := startsWithChars s.data p.data

/-- The conjunction of the six row filters of `remove_rows_without_mail`:
contains "@"; contains "."; not contains "@."; `startswith('@')`;
`startswith('\.')` — note the source passes the regex escape `'\.'` to the
non-regex `str.startswith`, so this last test looks for a literal
backslash-dot prefix; count of "@" equals 1. -/
def validEmail (e : String) : Bool :=
  e.data.contains '@' && e.data.contains '.' && !(hasAtDot e.data)
    && !(strStartsWith e "@") && !(strStartsWith e "\\.")
    && (e.data.count '@' == 1)

/-- `remove_rows_without_mail`: keep rows whose email is present and passes
every filter (`na=False` drops rows with missing email); the index reset is
implicit in the list model. -/
def remove_rows_without_mail (data : List Record) : List Record :=
  data.filter (fun r =>
    match r.email with
    | some e => validEmail e
    | none => false)

/-! ## Theorems about the email filter -/

private lemma filter_idem {α : Type} (p : α → Bool) (l : List α) :
    (l.filter p).filter p = l.filter p := by
  induction l with
  | nil => rfl
  | cons a l ih =>
    by_cases h : p a <;> simp [List.filter_cons, h, ih]

/-- Claim C9: `filterValidEmails` is idempotent — filtering the returned
table a second time yields exactly that table, because every kept row
already satisfies the code's email predicate. -/
theorem remove_rows_idempotent (data : List Record) :
    remove_rows_without_mail (remove_rows_without_mail data)
      = remove_rows_without_mail data := by
  unfold remove_rows_without_mail
  exact filter_idem _ data

/-- A row whose email starts with "." yet passes all the other checks. -/
def dotStartRec : Record := { blankRec with email := some ".a@b.com" }

/-- Claim C1 (code bug): the row with email ".a@b.com" (which starts with
".") survives `remove_rows_without_mail`, because the source tests
`startswith('\.')` — a literal backslash-dot prefix — instead of a "."
prefix; the spec demands that emails starting with "." be excluded. -/
theorem remove_rows_keeps_dot_start_email :
    remove_rows_without_mail [dotStartRec] = [dotStartRec]
      ∧ strStartsWith ".a@b.com" "." = true := by
  constructor
  · decide
  · decide

/-! ## `show_age_distrib` (spec: `ageDistribution`)

For each `age_edge` in `0, 10, ..., 90` the source calls
`value_counts(bins=[age_edge, age_edge + 9], dropna=True)`, which counts
the non-missing ages in the closed interval `[age_edge, age_edge + 9]`
(pandas' `value_counts(bins=...)` cuts with `include_lowest=True`); the
eleventh loop iteration only writes the final bin edge `100`. -/

/-- Membership of an age in histogram bin `i`, the closed interval
`[10 * i, 10 * i + 9]`. -/
def inBin (i : ℕ) (a : ℚ) : Bool := decide ((10 * i : ℚ) ≤ a ∧ a ≤ 10 * i + 9)

/-- The non-missing ages of the table (column `age` after `dropna`). -/
def ages (data : List Record) : List ℚ := data.filterMap (·.age)

/-- `show_age_distrib`: ten bin counts and the eleven bin edges
`0, 10, ..., 100`. -/
def show_age_distrib (data : List Record) : List ℕ × List ℚ :=
  ((List.range 10).map (fun i => (ages data).countP (inBin i)),
   (List.range 11).map (fun i => (10 * i : ℚ)))

/-- An age lies in some histogram bin (it is in `[10i, 10i + 9]` for some
`i < 10`; ages in the gaps `(10i + 9, 10i + 10)` and ages outside
`[0, 99]` lie in none). -/
def inSomeBin (a : ℚ) : Bool := (List.range 10).any (fun i => inBin i a)

/-! ## Theorems about the age histogram -/

private lemma inBin_unique {a : ℚ} {i j : ℕ}
    (hi : inBin i a = true) (hj : inBin j a = true) : i = j := by
  unfold inBin at hi hj
  have hi' := of_decide_eq_true hi
  have hj' := of_decide_eq_true hj
  have hij : 10 * i ≤ 10 * j + 9 := by exact_mod_cast hi'.1.trans hj'.2
  have hji : 10 * j ≤ 10 * i + 9 := by exact_mod_cast hj'.1.trans hi'.2
  omega

private lemma countP_unique_aux (p : ℕ → Bool) :
    ∀ l : List ℕ, l.Nodup → (∀ i ∈ l, ∀ j ∈ l, p i = true → p j = true → i = j) →
      l.countP p = if l.any p then 1 else 0 := by
  intro l
  induction l with
  | nil => simp
  | cons x xs ih =>
    intro hnd huniq
    rw [List.countP_cons]
    by_cases hx : p x = true
    · have hxs : xs.countP p = 0 := by
        rw [List.countP_eq_zero]
        intro y hy hpy
        have hyx : y = x :=
          huniq y (List.mem_cons_of_mem _ hy) x (List.mem_cons_self _ _) hpy hx
        exact absurd (hyx ▸ hy) (List.nodup_cons.mp hnd).1
      simp [hx, hxs, List.any_cons]
    · have hrec := ih (List.nodup_cons.mp hnd).2
        (fun i hi j hj => huniq i (List.mem_cons_of_mem _ hi) j (List.mem_cons_of_mem _ hj))
      simp only [List.any_cons]
      rw [hrec]
      simp [hx]

private lemma sum_map_add (f g : ℕ → ℕ) (l : List ℕ) :
    (l.map (fun i => f i + g i)).sum = (l.map f).sum + (l.map g).sum := by
  induction l with
  | nil => simp
  | cons x xs ih => simp [ih]; omega

private lemma sum_map_ite (p : ℕ → Bool) (l : List ℕ) :
    (l.map (fun i => if p i then 1 else 0)).sum = l.countP p := by
  induction l with
  | nil => simp
  | cons x xs ih =>
    rw [List.countP_cons]
    by_cases h : p x = true
    · simp [h, ih]
      omega
    · simp [h, ih]

private lemma hist_sum (as : List ℚ) :
    ((List.range 10).map (fun i => as.countP (inBin i))).sum = as.countP inSomeBin := by
  induction as with
  | nil => simp
  | cons a as ih =>
    have hfun : (fun i => (a :: as).countP (inBin i))
        = fun i => as.countP (inBin i) + if inBin i a then 1 else 0 := by
      funext i
      rw [List.countP_cons]
    rw [hfun, sum_map_add, ih, sum_map_ite,
      countP_unique_aux _ (List.range 10) (List.nodup_range 10)
        (fun i _ j _ hi hj => inBin_unique hi hj),
      List.countP_cons]
    rfl

private lemma countP_ages (data : List Record) :
    (ages data).countP inSomeBin
      = data.countP (fun r =>
          match r.age with
          | some a => inSomeBin a
          | none => false) := by
  unfold ages
  induction data with
  | nil => rfl
  | cons r rs ih =>
    rw [List.countP_cons]
    cases h : r.age with
    | none => simp [List.filterMap_cons, h, ih]
    | some a => simp [List.filterMap_cons, h, List.countP_cons, ih]

/-- Claim C2 (amended): the ten counts of `show_age_distrib` sum to the
number of rows whose age is non-missing AND lies in one of the closed bins
`[10i, 10i + 9]` (`i < 10`); non-missing ages in the gaps between bins or
outside `[0, 99]` are counted in no bin. -/
theorem age_distrib_sum_in_bins (data : List Record) :
    (show_age_distrib data).1.sum
      = data.countP (fun r =>
          match r.age with
          | some a => inSomeBin a
          | none => false) := by
  rw [show (show_age_distrib data).1
      = (List.range 10).map (fun i => (ages data).countP (inBin i)) from rfl,
    hist_sum, countP_ages]

/-- A row whose age is non-missing but equal to `9.5`, which lies in no
histogram bin (`9.5 > 9` and `9.5 < 10`). -/
def gapAgeRec : Record := { blankRec with age := some (19 / 2) }

/-- Claim C2 (counterexample): for the one-row table with age `9.5` the
bin counts sum to `0`, not to the number of rows with non-missing age,
which is `1`. -/
theorem age_distrib_sum_counterexample :
    ¬ ((show_age_distrib [gapAgeRec]).1.sum
        = ([gapAgeRec].filter (fun r => r.age.isSome)).length) := by
  have h : inSomeBin (19 / 2 : ℚ) = false := by
    rw [inSomeBin, show List.range 10 = [0, 1, 2, 3, 4, 5, 6, 7, 8, 9] from rfl]
    simp only [List.any_cons, List.any_nil, inBin, Bool.or_eq_false_iff,
      decide_eq_false_iff_not, not_and]
    norm_num
  rw [show (show_age_distrib [gapAgeRec]).1
      = (List.range 10).map (fun i => (ages [gapAgeRec]).countP (inBin i)) from rfl,
    hist_sum, countP_ages]
  simp [gapAgeRec, blankRec, List.countP_cons, h]

/-! ## `fill_na_with_mean` (spec: `imputeMissingScores`)

The source iterates field-major over `questions = [q1, ..., q5]`: for each
question it records the indices of the rows where that question is missing
(in the current, partially imputed frame) and assigns each such cell
`np.mean(df[this_list].iloc[index])` — the mean of the row's four other
question cells, which (being a pandas `Series.mean`) skips missing values
and is `NaN` when all four are missing.  Afterwards all five question
columns are rounded to 2 decimals, and `np.unique(sorted(arr))` returns
the sorted duplicate-free index array. -/

/-- `numpy`'s round-half-to-even on an exact rational. -/
def roundHalfEven (x : ℚ) : ℤ :=
  let f : ℤ := ⌊x⌋
  let frac : ℚ := x - f
  if frac < 1 / 2 then f
  else if 1 / 2 < frac then f + 1
  else if f % 2 = 0 then f else f + 1

/-- `round(decimals=2)` on an exact rational. -/
def round2 (x : ℚ) : ℚ := (roundHalfEven (x * 100) : ℚ) / 100

/-- `round(8)` on an exact rational. -/
def round8 (x : ℚ) : ℚ := (roundHalfEven (x * 100000000) : ℚ) / 100000000

/-- `df[question].isna()` for one cell of the working frame. -/
def qMissing (r : Record) (k : Fin 5) : Bool := ((r.qs k).toOpt).isNone

/-- `this_list = questions.copy(); this_list.remove(question)`. -/
def otherQuestions (k : Fin 5) : List (Fin 5) :=
  (List.finRange 5).filter (fun j => j ≠ k)

/-- `np.mean(df[this_list].iloc[index])`: the mean of the row's other four
question cells, skipping missing ones; `none` (NaN) when none is present. -/
def meanOtherQs (r : Record) (k : Fin 5) : Option ℚ :=
  let vals := (otherQuestions k).filterMap (fun j => (r.qs j).toOpt)
  if vals.length = 0 then none else some (vals.sum / vals.length)

/-- The assignment `df[question][index] = np.mean(...)` on one row (a row
not in the mask is left alone). -/
def imputeField (k : Fin 5) (r : Record) : Record :=
  match qMissing r k, meanOtherQs r k with
  | true, some m => { r with qs := Function.update r.qs k (QVal.num m) }
  | true, none => { r with qs := Function.update r.qs k QVal.missing }
  | false, _ => r

/-- `df[mask].index`: the positions of the rows whose question `k` is
missing in the current frame. -/
def maskIdx (df : List Record) (k : Fin 5) : List ℕ :=
  (List.range df.length).filter
    (fun i => (df[i]?.map (fun r => qMissing r k)).getD false)

/-- One iteration of `for question in questions`: record the mask indices,
then impute that question for every masked row. -/
def fillStep (acc : List Record × List ℕ) (k : Fin 5) : List Record × List ℕ :=
  (acc.1.map (imputeField k), acc.2 ++ maskIdx acc.1 k)

/-- `df[questions] = df[questions].round(decimals=2)` on one row. -/
def roundRecordQs (r : Record) : Record :=
  { r with qs := fun i =>
      match r.qs i with
      | QVal.num x => QVal.num (round2 x)
      | v => v }

/-- `fill_na_with_mean`: normalize "nan", run the five field-major passes,
round the question columns to 2 decimals, and return the frame together
with `np.unique(sorted(arr))` — the sorted duplicate-free indices of the
rows that were masked in some pass.  (The final column selection keeps all
eleven columns and is the identity in the row model.) -/
def fill_na_with_mean (data : List Record) : List Record × List ℕ :=
  let p := (List.finRange 5).foldl fillStep (data.map Record.normalize, [])
  (p.1.map roundRecordQs, (p.2.insertionSort (· ≤ ·)).dedup)

/-! ### Helper lemmas on the passes -/

private lemma imputeField_qs_ne {j k : Fin 5} (r : Record) (h : j ≠ k) :
    (imputeField k r).qs j = r.qs j := by
  unfold imputeField
  cases hm : qMissing r k with
  | false => rfl
  | true =>
    cases hv : meanOtherQs r k with
    | none => exact Function.update_noteq h _ _
    | some m => exact Function.update_noteq h _ _

private lemma qMissing_imputeField_ne {j k : Fin 5} (r : Record) (h : j ≠ k) :
    qMissing (imputeField k r) j = qMissing r j := by
  unfold qMissing
  rw [imputeField_qs_ne r h]

private lemma mem_maskIdx {df : List Record} {k : Fin 5} {i : ℕ} :
    i ∈ maskIdx df k ↔ ∃ r, df[i]? = some r ∧ qMissing r k = true := by
  unfold maskIdx
  rw [List.mem_filter, List.mem_range]
  constructor
  · rintro ⟨hlt, hcond⟩
    cases h : df[i]? with
    | none =>
      rw [List.getElem?_eq_none_iff] at h
      omega
    | some r =>
      refine ⟨r, rfl, ?_⟩
      rw [h] at hcond
      simpa using hcond
  · rintro ⟨r, hr, hm⟩
    have hlt : i < df.length := by
      by_contra hge
      rw [List.getElem?_eq_none_iff.mpr (by omega)] at hr
      cases hr
    exact ⟨hlt, by rw [hr]; simpa using hm⟩

private lemma foldl_fillStep_fst_getElem? :
    ∀ (ks : List (Fin 5)) (df : List Record) (arr : List ℕ) (i : ℕ),
      (ks.foldl fillStep (df, arr)).1[i]?
        = df[i]?.map (fun r => ks.foldl (fun s k => imputeField k s) r) := by
  intro ks
  induction ks with
  | nil =>
    intro df arr i
    show df[i]? = df[i]?.map (fun r => r)
    cases h : df[i]? <;> simp
  | cons k ks ih =>
    intro df arr i
    rw [List.foldl_cons, show fillStep (df, arr) k
        = (df.map (imputeField k), arr ++ maskIdx df k) from rfl,
      ih, List.getElem?_map, Option.map_map]
    cases h : df[i]? <;> simp [List.foldl_cons, Function.comp]

private lemma foldl_fillStep_snd_mem :
    ∀ (ks : List (Fin 5)) (df : List Record) (arr : List ℕ) (i : ℕ),
      ks.Nodup →
      (i ∈ (ks.foldl fillStep (df, arr)).2
        ↔ i ∈ arr ∨ ∃ k ∈ ks, ∃ r, df[i]? = some r ∧ qMissing r k = true) := by
  intro ks
  induction ks with
  | nil => simp
  | cons k ks ih =>
    intro df arr i hnd
    rw [List.foldl_cons, show fillStep (df, arr) k
        = (df.map (imputeField k), arr ++ maskIdx df k) from rfl,
      ih _ _ _ (List.nodup_cons.mp hnd).2]
    have hknotin : k ∉ ks := (List.nodup_cons.mp hnd).1
    constructor
    · rintro (hmem | ⟨k', hk', r, hr, hm⟩)
      · rcases List.mem_append.mp hmem with h | h
        · exact Or.inl h
        · rcases mem_maskIdx.mp h with ⟨r, hr, hm⟩
          exact Or.inr ⟨k, List.mem_cons_self _ _, r, hr, hm⟩
      · rw [List.getElem?_map] at hr
        cases h : df[i]? with
        | none => rw [h] at hr; cases hr
        | some r0 =>
          rw [h] at hr
          have hr0 : imputeField k r0 = r := by simpa using hr
          have hne : k' ≠ k := fun he => hknotin (he ▸ hk')
          refine Or.inr ⟨k', List.mem_cons_of_mem _ hk', r0, rfl, ?_⟩
          rw [← qMissing_imputeField_ne r0 hne, hr0]
          exact hm
    · rintro (hmem | ⟨k', hk', r, hr, hm⟩)
      · exact Or.inl (List.mem_append.mpr (Or.inl hmem))
      · rcases List.mem_cons.mp hk' with he | hk'
        · subst he
          exact Or.inl (List.mem_append.mpr (Or.inr (mem_maskIdx.mpr ⟨r, hr, hm⟩)))
        · have hne : k' ≠ k := fun he => hknotin (he ▸ hk')
          refine Or.inr ⟨k', hk', imputeField k r, ?_, ?_⟩
          · rw [List.getElem?_map, hr]; rfl
          · rw [qMissing_imputeField_ne r hne]; exact hm

private lemma mem_fill_arr (data : List Record) (i : ℕ) :
    i ∈ (fill_na_with_mean data).2
      ↔ ∃ k : Fin 5, ∃ r, (data.map Record.normalize)[i]? = some r
          ∧ qMissing r k = true := by
  simp only [fill_na_with_mean]
  rw [List.mem_dedup, (List.perm_insertionSort _ _).mem_iff,
    foldl_fillStep_snd_mem (List.finRange 5) _ [] i (List.nodup_finRange 5)]
  simp [List.mem_finRange]

private lemma fill_arr_nodup (data : List Record) :
    ((fill_na_with_mean data).2).Nodup := by
  simp only [fill_na_with_mean]
  exact List.nodup_dedup _

private lemma imputeField_allMissing {r : Record} (k : Fin 5)
    (h : ∀ j, qMissing r j = true) :
    ∀ j, qMissing (imputeField k r) j = true := by
  have hmean : meanOtherQs r k = none := by
    unfold meanOtherQs
    have hnil : (otherQuestions k).filterMap (fun j => (r.qs j).toOpt) = [] := by
      rw [List.filterMap_eq_nil_iff]
      intro j hj
      have hm := h j
      unfold qMissing at hm
      rwa [Option.isNone_iff_eq_none] at hm
    simp [hnil]
  intro j
  unfold imputeField
  rw [h k, hmean]
  show qMissing { r with qs := Function.update r.qs k QVal.missing } j = true
  by_cases hj : j = k
  · subst hj
    unfold qMissing
    show ((Function.update r.qs j QVal.missing j).toOpt).isNone = true
    rw [Function.update_same]
    rfl
  · unfold qMissing
    show ((Function.update r.qs k QVal.missing j).toOpt).isNone = true
    rw [Function.update_noteq hj]
    exact h j

private lemma foldl_impute_allMissing (ks : List (Fin 5)) :
    ∀ r : Record, (∀ j, qMissing r j = true) →
      ∀ j, qMissing (ks.foldl (fun s k => imputeField k s) r) j = true := by
  induction ks with
  | nil => intro r h j; exact h j
  | cons k ks ih =>
    intro r h j
    rw [List.foldl_cons]
    exact ih _ (imputeField_allMissing k h) j

private lemma qMissing_roundRecordQs (r : Record) (j : Fin 5) :
    qMissing (roundRecordQs r) j = qMissing r j := by
  unfold qMissing roundRecordQs
  cases h : r.qs j <;> simp [h, QVal.toOpt]

/-- Claim C6: the index array returned by `fill_na_with_mean` is sorted in
increasing order, has no duplicates, and a row that was subject to
imputation (some question field missing when its pass ran) appears in it
exactly once, even when several of its fields were imputed. -/
theorem fill_na_index_sorted_nodup_once (data : List Record) :
    ((fill_na_with_mean data).2).Sorted (· ≤ ·)
    ∧ ((fill_na_with_mean data).2).Nodup
    ∧ ∀ i : ℕ,
        (∃ k : Fin 5, ∃ r, (data.map Record.normalize)[i]? = some r
          ∧ qMissing r k = true) →
        ((fill_na_with_mean data).2).count i = 1 := by
  refine ⟨?_, fill_arr_nodup data, ?_⟩
  · simp only [fill_na_with_mean]
    exact List.Pairwise.sublist (List.dedup_sublist _) (List.sorted_insertionSort _ _)
  · intro i hi
    exact List.count_eq_one_of_mem (fill_arr_nodup data) ((mem_fill_arr data i).mpr hi)

/-- A row with q1 and q2 missing and q3, q4, q5 present. -/
def twoMissingRec : Record :=
  { blankRec with
    qs := ![QVal.missing, QVal.missing, QVal.num 3, QVal.num 4, QVal.num 5] }

/-- Witness for C6: the row imputed for two fields appears exactly once in
the returned index array. -/
theorem fill_na_index_sorted_nodup_once_witness :
    ((fill_na_with_mean [twoMissingRec]).2).count 0 = 1 :=
  (fill_na_index_sorted_nodup_once [twoMissingRec]).2.2 0
    ⟨0, twoMissingRec.normalize, by decide, by decide⟩

/-- Claim C10: the returned index array contains a row's index iff at least
one of the row's five question fields was missing before imputation (after
"nan" normalization); in particular an all-missing row is listed although
its fields remain missing in the returned table. -/
theorem fill_na_index_iff_missing (data : List Record) (i : ℕ) :
    (i ∈ (fill_na_with_mean data).2
      ↔ ∃ k : Fin 5, ∃ r, (data.map Record.normalize)[i]? = some r
          ∧ qMissing r k = true)
    ∧ ∀ r, (data.map Record.normalize)[i]? = some r →
        (∀ k, qMissing r k = true) →
        ∃ r', (fill_na_with_mean data).1[i]? = some r'
          ∧ ∀ k, qMissing r' k = true := by
  refine ⟨mem_fill_arr data i, ?_⟩
  intro r hr hall
  refine ⟨roundRecordQs ((List.finRange 5).foldl (fun s k => imputeField k s) r),
    ?_, ?_⟩
  · simp only [fill_na_with_mean]
    rw [List.getElem?_map, foldl_fillStep_fst_getElem?, hr]
    rfl
  · intro k
    rw [qMissing_roundRecordQs]
    exact foldl_impute_allMissing _ r hall k

/-- Witness for C10: the all-missing row is listed in the index array, and
its question fields are still missing in the returned table. -/
theorem fill_na_index_iff_missing_witness :
    (0 ∈ (fill_na_with_mean [blankRec]).2)
    ∧ ∃ r', (fill_na_with_mean [blankRec]).1[0]? = some r'
        ∧ ∀ k, qMissing r' k = true := by
  have h := fill_na_index_iff_missing [blankRec] 0
  exact ⟨h.1.mpr ⟨0, blankRec.normalize, by decide, by decide⟩,
    h.2 blankRec.normalize (by decide) (by decide)⟩

private lemma roundHalfEven_intCast (n : ℤ) : roundHalfEven (n : ℚ) = n := by
  unfold roundHalfEven
  rw [Int.floor_intCast]
  norm_num

private lemma round2_intCast (n : ℤ) : round2 (n : ℚ) = n := by
  unfold round2
  rw [show ((n : ℚ) * 100) = ((n * 100 : ℤ) : ℚ) by push_cast; ring,
    roundHalfEven_intCast]
  push_cast
  field_simp

/-- Claim C3: in the field-major pass order q1, ..., q5, a row whose q1 is
missing (after "nan" normalisation) and whose q2..q5 carry the values
`a, b, c, d` gets q1 imputed with the mean of the four present fields and
then rounded to 2 decimals, i.e. `round2 ((a + b + c + d) / 4)`. -/
theorem fill_na_single_missing_mean (data : List Record) (i : ℕ) (r : Record)
    (a b c d : ℚ)
    (hget : (data.map Record.normalize)[i]? = some r)
    (h0 : (r.qs 0).toOpt = none)
    (h1 : r.qs 1 = QVal.num a) (h2 : r.qs 2 = QVal.num b)
    (h3 : r.qs 3 = QVal.num c) (h4 : r.qs 4 = QVal.num d) :
    ∃ r', (fill_na_with_mean data).1[i]? = some r'
      ∧ r'.qs 0 = QVal.num (round2 ((a + b + c + d) / 4)) := by
  have hmean : meanOtherQs r 0 = some ((a + b + c + d) / 4) := by
    unfold meanOtherQs
    rw [show otherQuestions 0 = [1, 2, 3, 4] from by decide]
    simp [h1, h2, h3, h4, QVal.toOpt]
    ring
  have hmiss : qMissing r 0 = true := by
    unfold qMissing
    rw [h0]
    rfl
  have hr1 : imputeField 0 r
      = { r with qs := Function.update r.qs 0 (QVal.num ((a + b + c + d) / 4)) } := by
    unfold imputeField
    rw [hmiss, hmean]
  have step : (List.finRange 5).foldl (fun s k => imputeField k s) r
      = { r with qs := Function.update r.qs 0 (QVal.num ((a + b + c + d) / 4)) } := by
    rw [show (List.finRange 5) = [0, 1, 2, 3, 4] from by decide]
    simp only [List.foldl_cons, List.foldl_nil]
    rw [hr1]
    have hnm : ∀ k : Fin 5, k ≠ 0 →
        qMissing { r with qs := Function.update r.qs 0 (QVal.num ((a + b + c + d) / 4)) } k
          = false := by
      intro k hk
      unfold qMissing
      show ((Function.update r.qs 0 (QVal.num ((a + b + c + d) / 4)) k).toOpt).isNone = false
      rw [Function.update_noteq hk]
      fin_cases k
      · exact absurd rfl hk
      · show (r.qs 1).toOpt.isNone = false
        rw [h1]; rfl
      · show (r.qs 2).toOpt.isNone = false
        rw [h2]; rfl
      · show (r.qs 3).toOpt.isNone = false
        rw [h3]; rfl
      · show (r.qs 4).toOpt.isNone = false
        rw [h4]; rfl
    have e1 : imputeField 1 { r with qs := Function.update r.qs 0 (QVal.num ((a + b + c + d) / 4)) }
        = { r with qs := Function.update r.qs 0 (QVal.num ((a + b + c + d) / 4)) } := by
      unfold imputeField
      rw [hnm 1 (by decide)]
    have e2 : imputeField 2 { r with qs := Function.update r.qs 0 (QVal.num ((a + b + c + d) / 4)) }
        = { r with qs := Function.update r.qs 0 (QVal.num ((a + b + c + d) / 4)) } := by
      unfold imputeField
      rw [hnm 2 (by decide)]
    have e3 : imputeField 3 { r with qs := Function.update r.qs 0 (QVal.num ((a + b + c + d) / 4)) }
        = { r with qs := Function.update r.qs 0 (QVal.num ((a + b + c + d) / 4)) } := by
      unfold imputeField
      rw [hnm 3 (by decide)]
    have e4 : imputeField 4 { r with qs := Function.update r.qs 0 (QVal.num ((a + b + c + d) / 4)) }
        = { r with qs := Function.update r.qs 0 (QVal.num ((a + b + c + d) / 4)) } := by
      unfold imputeField
      rw [hnm 4 (by decide)]
    rw [e1, e2, e3, e4]
  refine ⟨roundRecordQs ((List.finRange 5).foldl (fun s k => imputeField k s) r), ?_, ?_⟩
  · simp only [fill_na_with_mean]
    rw [List.getElem?_map, foldl_fillStep_fst_getElem?, hget]
    rfl
  · rw [step]
    show (match Function.update r.qs 0 (QVal.num ((a + b + c + d) / 4)) 0 with
      | QVal.num x => QVal.num (round2 x)
      | v => v) = QVal.num (round2 ((a + b + c + d) / 4))
    rw [Function.update_same]

/-- The spec's example row: q1 is the textual literal "nan", and q2..q5
are 2, 4, 6, 8. -/
def singleMissingRec : Record :=
  { blankRec with
    qs := ![QVal.nanText, QVal.num 2, QVal.num 4, QVal.num 6, QVal.num 8] }

/-- Witness for C3: the example row gets q1 = mean(2, 4, 6, 8) = 5.0. -/
theorem fill_na_single_missing_mean_witness :
    ∃ r', (fill_na_with_mean [singleMissingRec]).1[0]? = some r'
      ∧ r'.qs 0 = QVal.num 5 := by
  obtain ⟨r', hr, hq⟩ := fill_na_single_missing_mean [singleMissingRec] 0
    singleMissingRec.normalize 2 4 6 8 (by decide) (by decide) (by decide)
    (by decide) (by decide) (by decide)
  refine ⟨r', hr, ?_⟩
  rw [hq, show ((2 + 4 + 6 + 8 : ℚ) / 4) = ((5 : ℤ) : ℚ) by norm_num,
    round2_intCast]
  norm_num

/-! ## `score_subjects` (spec: `scoreSubjects`)

The source normalizes "nan", sets `score = floor(nanmean(q1..q5))` per
row, then overwrites it with `pd.NA` for rows where the count of present
question fields is strictly below `len(questions) - maximal_nans_per_sub`,
and casts to the nullable `UInt8` type.  We model the score column as an
`Option ℤ` (the floored value, `none` for `NA`). -/

/-- The present (non-missing after normalization) question values of a
row, `row[questions]` with NaN dropped. -/
def presentQs (r : Record) : List ℚ :=
  (List.finRange 5).filterMap (fun j => (r.qs j).toOpt)

/-- `np.nanmean` over the five question cells of a row: the mean of the
present values, `NaN` (`none`) when none is present. -/
def nanmeanQs (r : Record) : Option ℚ :=
  if (presentQs r).length = 0 then none
  else some ((presentQs r).sum / (presentQs r).length)

/-- `score_subjects`: each row of the normalized frame paired with its
score column. -/
def score_subjects (maximal_nans_per_sub : ℤ) (data : List Record) :
    List (Record × Option ℤ) :=
  data.map (fun r0 =>
    let r := r0.normalize
    let s1 : Option ℤ :=
      match nanmeanQs r with
      | some x => some ⌊x⌋
      | none => none
    (r, if ((presentQs r).length : ℤ) < 5 - maximal_nans_per_sub then none else s1))

/-- Claim C4 (amended): the score of a row is the floor of the mean of its
present question values, and it is the missing marker exactly when the
present count is strictly below `5 - maxMissing` OR no question field is
present at all (the all-missing row has a NaN mean, hence a missing score,
even when `maxMissing ≥ 5` allows it). -/
theorem score_subjects_score_spec (m : ℤ) (data : List Record) (i : ℕ)
    (r0 : Record) (h : data[i]? = some r0) :
    (score_subjects m data)[i]?
      = some (r0.normalize,
          if ((presentQs r0.normalize).length : ℤ) < 5 - m
              ∨ (presentQs r0.normalize).length = 0
          then none
          else some ⌊(presentQs r0.normalize).sum
            / ((presentQs r0.normalize).length : ℚ)⌋) := by
  unfold score_subjects
  rw [List.getElem?_map, h]
  show some _ = some _
  congr 1
  refine Prod.ext rfl ?_
  show (if ((presentQs r0.normalize).length : ℤ) < 5 - m then none
      else match nanmeanQs r0.normalize with
        | some x => some ⌊x⌋
        | none => none) = _
  by_cases hz : (presentQs r0.normalize).length = 0
  · simp [nanmeanQs, hz]
  · simp [nanmeanQs, hz]

/-- Claim C4 (counterexample): with `maxMissing = 5` the all-missing row
gets a missing score although its present-count `0` is not strictly less
than `5 - 5 = 0`, refuting the claimed "exactly when". -/
theorem score_subjects_missing_counterexample :
    ((score_subjects 5 [blankRec]).map Prod.snd = [none])
    ∧ ¬ (((presentQs blankRec.normalize).length : ℤ) < 5 - 5) := by
  constructor
  · decide
  · decide

/-- The spec's first example row [3, 4, 5, nan, nan] (one textual "nan",
one true missing). -/
def rowA : Record :=
  { blankRec with
    qs := ![QVal.num 3, QVal.num 4, QVal.num 5, QVal.nanText, QVal.missing] }

/-- The spec's second example row [3, 4, 5, 6, nan]. -/
def rowB : Record :=
  { blankRec with
    qs := ![QVal.num 3, QVal.num 4, QVal.num 5, QVal.num 6, QVal.missing] }

/-- Witness for C4: with `maxMissing = 1`, row [3,4,5,nan,nan] scores
missing and row [3,4,5,6,nan] scores `floor(4.5) = 4`. -/
theorem score_subjects_score_spec_witness :
    (score_subjects 1 [rowA, rowB])[0]? = some (rowA.normalize, none)
    ∧ (score_subjects 1 [rowA, rowB])[1]? = some (rowB.normalize, some 4) := by
  constructor
  · rw [score_subjects_score_spec 1 [rowA, rowB] 0 rowA (by decide)]
    decide
  · rw [score_subjects_score_spec 1 [rowA, rowB] 1 rowB (by decide)]
    have hc : ¬ (((presentQs rowB.normalize).length : ℤ) < 5 - 1
        ∨ (presentQs rowB.normalize).length = 0) := by decide
    rw [if_neg hc, show presentQs rowB.normalize = [3, 4, 5, 6] from by decide]
    norm_num [Int.floor_eq_iff]

/-! ## `correlate_gender_age` (spec: `correlateGenderAge`)

The source normalizes "nan", drops rows with missing age, replaces `age`
by the boolean `False if x < 40 else True`, and groups by
`(gender, age)`; `groupby` silently drops rows whose gender is missing
(NaN keys form no group).  Each group's q1..q5 means skip missing values
and are rounded to 8 decimals. -/

/-- `lambda x: False if x < 40 else True` applied to a (present) age. -/
def isOver40 (x : ℚ) : Bool := if x < 40 then false else true

/-- The keyed rows entering `groupby`: rows with a present age, tagged
with their `(gender, isOver40)` key; rows with missing gender are dropped
(NaN group keys). -/
def cgaRows (data : List Record) : List ((String × Bool) × Record) :=
  ((data.map Record.normalize).filter (fun r => r.age.isSome)).filterMap
    (fun r => r.gender.map (fun g => ((g, isOver40 (r.age.getD 0)), r)))

/-- The distinct observed group keys. -/
def cgaKeys (data : List Record) : List (String × Bool) :=
  ((cgaRows data).map Prod.fst).dedup

/-- The rows of one group. -/
def groupRows (data : List Record) (key : String × Bool) : List Record :=
  ((cgaRows data).filter (fun p => decide (p.1 = key))).map Prod.snd

/-- One group's mean for question `j`: the arithmetic mean of the group's
present values, rounded to 8 decimals; `none` when no value is present. -/
def groupMean (rows : List Record) (j : Fin 5) : Option ℚ :=
  let vals := rows.filterMap (fun r => (r.qs j).toOpt)
  if vals.length = 0 then none else some (round8 (vals.sum / vals.length))

/-- `correlate_gender_age`: one output row per observed group key, holding
the five rounded group means. -/
def correlate_gender_age (data : List Record) :
    List ((String × Bool) × (Fin 5 → Option ℚ)) :=
  (cgaKeys data).map (fun k => (k, fun j => groupMean (groupRows data k) j))

private lemma round8_intCast (n : ℤ) : round8 (n : ℚ) = n := by
  unfold round8
  rw [show ((n : ℚ) * 100000000) = ((n * 100000000 : ℤ) : ℚ) by push_cast; ring,
    roundHalfEven_intCast]
  push_cast
  field_simp

/-- Claim C5: `isOver40` is true exactly when age ≥ 40; the output has one
row per observed `(gender, isOver40)` group (no duplicate keys, keys are
exactly those observed); each output row's question columns are the
group's rounded means of present values; and a group consisting of a
single row with q1 = 5 has q1 mean exactly 5. -/
theorem correlate_gender_age_spec (data : List Record) :
    (∀ x : ℚ, isOver40 x = decide (40 ≤ x))
    ∧ ((correlate_gender_age data).map Prod.fst).Nodup
    ∧ (∀ key, key ∈ (correlate_gender_age data).map Prod.fst
        ↔ ∃ p ∈ cgaRows data, p.1 = key)
    ∧ (∀ key f, (key, f) ∈ correlate_gender_age data →
        (∀ j, f j = groupMean (groupRows data key) j)
        ∧ (∀ r, groupRows data key = [r] → r.qs 0 = QVal.num 5 →
            f 0 = some 5)) := by
  have hm : (correlate_gender_age data).map Prod.fst = cgaKeys data := by
    unfold correlate_gender_age
    rw [List.map_map]
    show (cgaKeys data).map (fun k => k) = cgaKeys data
    simp
  refine ⟨?_, ?_, ?_, ?_⟩
  · intro x
    unfold isOver40
    by_cases h : x < 40
    · rw [if_pos h, eq_comm, decide_eq_false_iff_not]
      exact not_le.mpr h
    · rw [if_neg h, eq_comm, decide_eq_true_eq]
      exact not_lt.mp h
  · rw [hm]
    exact List.nodup_dedup _
  · intro key
    rw [hm]
    unfold cgaKeys
    rw [List.mem_dedup, List.mem_map]
  · intro key f hmem
    obtain ⟨k, hk, he⟩ := List.mem_map.mp hmem
    obtain ⟨hk1, hk2⟩ := Prod.mk.injEq _ _ _ _ ▸ he
    subst hk1
    constructor
    · intro j
      rw [← hk2]
    · intro r hrows hq
      rw [← hk2]
      show groupMean (groupRows data k) 0 = some 5
      rw [hrows]
      unfold groupMean
      simp [hq, QVal.toOpt]
      rw [show ((5 : ℚ)) = ((5 : ℤ) : ℚ) by norm_num, round8_intCast]

/-- A single row forming the group ("F", true): age 41, gender "F", every
question score 5. -/
def singletonGroupRec : Record :=
  { blankRec with
    age := some 41
    gender := some "F"
    qs := fun _ => QVal.num 5 }

/-- Witness for C5: the singleton group ("F", true) has q1 mean exactly
5. -/
theorem correlate_gender_age_spec_witness :
    ∃ f, (("F", true), f) ∈ correlate_gender_age [singletonGroupRec]
      ∧ f 0 = some 5 := by
  obtain ⟨h1, h2, h3, h4⟩ := correlate_gender_age_spec [singletonGroupRec]
  have hk : ("F", true) ∈ (correlate_gender_age [singletonGroupRec]).map Prod.fst :=
    (h3 ("F", true)).mpr
      ⟨(("F", true), singletonGroupRec.normalize), by decide, rfl⟩
  obtain ⟨p, hp, hfst⟩ := List.mem_map.mp hk
  have hp' : (p.1, p.2) ∈ correlate_gender_age [singletonGroupRec] := hp
  have hp'' : (("F", true), p.2) ∈ correlate_gender_age [singletonGroupRec] :=
    hfst ▸ hp'
  refine ⟨p.2, hp'', ?_⟩
  exact (h4 ("F", true) p.2 hp'').2 singletonGroupRec.normalize (by decide) (by decide)

/-! ## The class `QuestionnaireAnalysis` (spec: `QuestionnaireDataset`)

`__init__` checks `pathlib.Path(data_fname).is_file()` — the file-system
probe is abstracted as a boolean input — stores the path on success,
raises otherwise, and leaves `self.data = None`.  `read_data` stores the
parsed table.  Each query method reads `self.data`, builds derived frames
(`replace`, `astype` and boolean filtering all return fresh copies in the
source) and never assigns `self.data`, so we model the methods as state
transformers returning the state they were called on. -/

/-- The error raised at construction for a non-file path (a `ValueError`
in the source; the spec names it `InvalidPathError`). -/
inductive InvalidPathError where
  | invalidPath
deriving DecidableEq

/-- The object state: the stored path and the optional loaded table. -/
structure QuestionnaireAnalysis where
  data_fname : String
  data : Option (List Record)

/-- `__init__`: `is_file` is the result of the file-system probe on
`data_fname`. -/
def QuestionnaireAnalysis.init (data_fname : String) (is_file : Bool) :
    Except InvalidPathError QuestionnaireAnalysis :=
  if is_file then
    Except.ok { data_fname := data_fname, data := none }
  else
    Except.error InvalidPathError.invalidPath

/-- `read_data`: stores the parsed JSON table into `self.data`. -/
def QuestionnaireAnalysis.read_data (qa : QuestionnaireAnalysis)
    (parsed : List Record) : QuestionnaireAnalysis :=
  { qa with data := some parsed }

/-- The five query operations. -/
inductive QueryOp where
  | ageDistrib
  | validEmails
  | impute
  | score (maximal_nans_per_sub : ℤ)
  | corrGenderAge

/-- A query's return value. -/
inductive QueryResult where
  | histogram (h : List ℕ × List ℚ)
  | table (t : List Record)
  | tableWithIdx (t : List Record × List ℕ)
  | scored (t : List (Record × Option ℤ))
  | grouped (t : List ((String × Bool) × (Fin 5 → Option ℚ)))

/-- Running one query method on the object: each method only reads
`self.data` and returns a derived value, leaving the state as it was. -/
def runQuery (qa : QuestionnaireAnalysis) : QueryOp →
    QuestionnaireAnalysis × QueryResult
  | QueryOp.ageDistrib =>
    (qa, QueryResult.histogram (show_age_distrib (qa.data.getD [])))
  | QueryOp.validEmails =>
    (qa, QueryResult.table (remove_rows_without_mail (qa.data.getD [])))
  | QueryOp.impute =>
    (qa, QueryResult.tableWithIdx (fill_na_with_mean (qa.data.getD [])))
  | QueryOp.score m =>
    (qa, QueryResult.scored (score_subjects m (qa.data.getD [])))
  | QueryOp.corrGenderAge =>
    (qa, QueryResult.grouped (correlate_gender_age (qa.data.getD [])))

/-- Claim C7: construction with a non-file path raises `InvalidPathError`;
with an existing regular file it succeeds with an empty/unset dataset
state (no data loaded at construction time). -/
theorem init_path_check (data_fname : String) :
    QuestionnaireAnalysis.init data_fname false
        = Except.error InvalidPathError.invalidPath
    ∧ QuestionnaireAnalysis.init data_fname true
        = Except.ok { data_fname := data_fname, data := none } :=
  ⟨rfl, rfl⟩

/-- Claim C8: no query operation mutates the loaded dataset — after any of
the five queries the object's state (hence the stored table's row count,
order and cells) is exactly what it was. -/
theorem queries_preserve_state (qa : QuestionnaireAnalysis) (op : QueryOp) :
    (runQuery qa op).1 = qa := by
  cases op <;> rfl

end HW5
